import Mathlib

/-!
Verification model of the p2pos cluster control core.

The Go sources are embedded shallowly:

* `time.Time` values are modelled as `Int` nanoseconds since the epoch
  (UTC instants); `t.IsZero()` becomes `t = 0`, `a.After b` becomes
  `a > b`, and `.UTC()` is the identity on instants.
* `strings.TrimSpace` is modelled by `trimS` (character-list trimming of
  whitespace on both ends).
* libp2p cryptography (base64 decoding, key recovery, `Verify`) happens
  outside the repository; each call site takes the outcome of that call
  as an explicit function argument (an oracle returning `none` on
  success or `some errorMessage` on failure), so that the control flow
  around the calls is embedded exactly.
* Go maps keyed by strings are modelled by lists whose key projection is
  duplicate-free; `sort.Strings`/`sort.Slice` by `List.insertionSort`.
-/

/-- Whitespace trimming on a character list: drop leading and trailing
whitespace characters, modelling Go `strings.TrimSpace`. -/
def trimChars (l : List Char) : List Char :=
  ((l.dropWhile Char.isWhitespace).reverse.dropWhile Char.isWhitespace).reverse

/-- Model of Go `strings.TrimSpace` on strings. -/
def trimS (s : String) : String :=
  ⟨trimChars s.data⟩

/-- Lexicographic order on strings by character sequence, modelling the
byte order used by Go `sort.Strings` (UTF-8 byte order coincides with
code-point order). -/
def strLe (a b : String) : Prop := a.data ≤ b.data

instance : DecidableRel strLe := fun a b => inferInstanceAs (Decidable (a.data ≤ b.data))

instance : IsTrans String strLe := ⟨fun _ _ _ => le_trans⟩

instance : IsTotal String strLe := ⟨fun a b => le_total a.data b.data⟩

instance : IsAntisymm String strLe :=
  ⟨fun a b h h2 => by
    cases a; cases b
    exact congrArg String.mk (le_antisymm h h2)⟩

/-- Model of `normalizeMembers` (membership.go): trim every entry, drop
empty results, deduplicate, and sort lexicographically.  The Go code
collects the trimmed non-empty entries into a set (a map) and sorts the
keys; the result is the sorted duplicate-free list of that set, which is
what this definition computes. -/
def normalizeMembers (l : List String) : List String :=
  List.insertionSort strLe (((l.map trimS).filter (fun s => s ≠ "")).dedup)

/-- Field-for-field model of the Go `membership.AdminProof` struct.
Times are UTC instants in nanoseconds. -/
structure AdminProof where
  ClusterID : String
  PeerID : String
  Role : String
  ValidFrom : Int
  ValidTo : Int
  Sig : String
deriving DecidableEq, Repr

/-- Field-for-field model of the Go `membership.Snapshot` struct. -/
structure Snapshot where
  ClusterID : String
  IssuedAt : Int
  IssuerPeerID : String
  Members : List String
  Proof : AdminProof
  Sig : String
deriving DecidableEq, Repr

/-- Model of the Go `membership.Manager` struct.  The `memberSet` map is
modelled as the list of its keys; the mutex is dropped (the embedding is
sequential). -/
structure Manager where
  clusterID : String
  localPeer : String
  hasPubKey : Bool
  snapshot : Snapshot
  memberSet : List String
deriving DecidableEq, Repr

/-- The zero value of `membership.AdminProof`. -/
def emptyAdminProof : AdminProof :=
  { ClusterID := "", PeerID := "", Role := "", ValidFrom := 0, ValidTo := 0, Sig := "" }

/-- Model of `NewManager` (membership.go).  Decoding of a configured
system public key is an external crypto operation; this embedding keeps
only its observable effect on the manager, `hasPubKey`, which the Go
code sets exactly when the trimmed configuration string is non-empty
(the error branches abort construction and produce no manager). -/
def NewManager (clusterID systemPubKey localPeerID : String)
    (initialMembers : List String) : Manager :=
  let cluster := if trimS clusterID = "" then "default" else trimS clusterID
  let normalized := normalizeMembers initialMembers
  { clusterID := cluster
    localPeer := localPeerID
    hasPubKey := trimS systemPubKey ≠ ""
    snapshot :=
      { ClusterID := cluster
        IssuedAt := 0
        IssuerPeerID := ""
        Members := normalized
        Proof := emptyAdminProof
        Sig := "" }
    memberSet := normalized }

/-- Model of `Manager.IsMember`: membership in the key set of the
`memberSet` map. -/
def Manager.IsMember (m : Manager) (peerID : String) : Bool :=
  m.memberSet.contains peerID

/-- Model of `Manager.validateAdminProof` (membership.go).  The pure
field checks are embedded literally; the base64 decode of `proof.Sig`
and the `systemPub.Verify` call are summarised by the oracle
`adminSig`, which returns the error those lines produce, or `none` when
the signature decodes and verifies. -/
def Manager.validateAdminProof (m : Manager) (adminSig : AdminProof → Option String)
    (now : Int) (proof : AdminProof) (issuer : String) : Option String :=
  if proof.Role ≠ "admin" then some "admin proof role invalid"
  else if proof.ClusterID ≠ m.clusterID then some "admin proof cluster mismatch"
  else if proof.PeerID ≠ issuer then some "admin proof peer mismatch"
  else if now < proof.ValidFrom ∨ now > proof.ValidTo then
    some "admin proof expired or not yet valid"
  else adminSig proof

/-- Model of `Manager.validateSnapshot` (membership.go), preserving the
order of the checks in the source: cluster id, issued-at non-zero,
members non-empty, issuer non-empty, signature non-empty, then — when a
system public key is configured — the admin proof, and only after that
the snapshot signature verification (`verifySnapshotSignature`,
summarised by the oracle `snapSig`). -/
def Manager.validateSnapshot (m : Manager) (adminSig : AdminProof → Option String)
    (snapSig : Snapshot → Option String) (now : Int) (s : Snapshot) : Option String :=
  if trimS s.ClusterID ≠ m.clusterID then some "cluster_id mismatch"
  else if s.IssuedAt = 0 then some "issued_at is required"
  else if s.Members = [] then some "members is empty"
  else if trimS s.IssuerPeerID = "" then some "issuer_peer_id is required"
  else if trimS s.Sig = "" then some "snapshot signature is required"
  else
    match (if m.hasPubKey then m.validateAdminProof adminSig now s.Proof s.IssuerPeerID
           else none) with
    | some e => some e
    | none => snapSig s

/-- Model of `Manager.Apply` (membership.go): normalize the incoming
member list, validate, and replace the stored snapshot only when the
incoming `issued_at` is strictly newer; a stale snapshot is a no-op
that still returns success (`none`).  Returns the resulting manager and
the error. -/
def Manager.Apply (m : Manager) (adminSig : AdminProof → Option String)
    (snapSig : Snapshot → Option String) (now : Int) (s0 : Snapshot) :
    Manager × Option String :=
  let s := { s0 with Members := normalizeMembers s0.Members }
  match m.validateSnapshot adminSig snapSig now s with
  | some e => (m, some e)
  | none =>
    if ¬ s.IssuedAt > m.snapshot.IssuedAt then (m, none)
    else ({ m with snapshot := s, memberSet := s.Members }, none)

/-- Model of `canonicalSnapshot` (membership.go): the canonical signing
bytes `cluster_id|issued_at|issuer_peer_id|M` with `M` the normalized
member list joined by commas.  `fmt` stands for the rendering of a UTC
instant by `Format(time.RFC3339Nano)`. -/
def canonicalSnapshot (fmt : Int → String) (s : Snapshot) : String :=
  let members := normalizeMembers s.Members
  String.intercalate "|"
    [s.ClusterID, fmt s.IssuedAt, s.IssuerPeerID, String.intercalate "," members]

/-- Model of the Go `network.RuntimeState` string constants. -/
inductive RuntimeState where
  | unconfigured
  | degraded
  | healthy
deriving DecidableEq, Repr

/-- Membership test through an optional manager, modelling
`Node.isMember` (bootstrap.go): `false` when no manager is set. -/
def isMemberN (membership : Option Manager) (peerID : String) : Bool :=
  match membership with
  | none => false
  | some m => m.IsMember peerID

/-- Model of `Node.evaluateRuntimeState` (runtime state file).  The
node's view of the transport is passed as `peers`, the list of
`(peerID, connected)` pairs reported by `Host.Network()`; `localID` is
`Host.ID().String()`.  Returns the state the node stores. -/
def evaluateRuntimeState (membership : Option Manager) (localID : String)
    (peers : List (String × Bool)) : RuntimeState :=
  match membership with
  | none => RuntimeState.unconfigured
  | some manager =>
    if manager.IsMember localID = false then RuntimeState.unconfigured
    else
      let memberCount := manager.snapshot.Members.length
      if memberCount = 0 then RuntimeState.unconfigured
      else
        let online := 1 + (peers.filter (fun p => p.2 && manager.IsMember p.1)).length
        if online * 2 > memberCount then RuntimeState.healthy
        else RuntimeState.degraded

/-- Model of `Node.allowPeer`: any peer is allowed while the runtime is
unconfigured; otherwise only current members. -/
def allowPeer (st : RuntimeState) (membership : Option Manager) (peerID : String) : Bool :=
  if st = RuntimeState.unconfigured then true
  else isMemberN membership peerID

/-- Model of the `ConnectedF` callback of
`Node.registerConnectionNotifications` (bootstrap.go): clear the
per-peer unsupported marks for the remote, then close the connection
exactly when `allowPeer` refuses it.  Returns
`(connectionClosed, remaining heartbeat marks, remaining status marks)`. -/
def onPeerConnected (st : RuntimeState) (membership : Option Manager)
    (hbMarks stMarks : List String) (peerID : String) :
    Bool × List String × List String :=
  let hb := hbMarks.filter (fun q => q ≠ peerID)
  let stm := stMarks.filter (fun q => q ≠ peerID)
  (!(allowPeer st membership peerID), hb, stm)

/-- Model of the Go `heartbeatMessage` struct; `ts` stays a string as on
the wire. -/
structure heartbeatMessage where
  ClusterID : String
  PeerID : String
  Timestamp : String
  Sig : String
deriving DecidableEq, Repr

/-- `heartbeatWindow = 5 * time.Minute`, in nanoseconds. -/
def heartbeatWindow : Int := 5 * 60 * 1000000000

/-- Model of `Node.validateHeartbeat` (heartbeat file).  `isMem` stands
for `n.isMember`, `clusterID` for `n.clusterID()`, `parseTs` for
`time.Parse(time.RFC3339Nano, ·)` (`none` on parse failure), and
`sigCheck` for the signature block (base64 decode, peer-id decode, key
extraction and `Verify` over `canonicalHeartbeat`), returning the error
that block produces or `none` when the signature is valid. -/
def validateHeartbeat (isMem : String → Bool) (clusterID : String)
    (parseTs : String → Option Int)
    (sigCheck : heartbeatMessage → Int → Option String)
    (now : Int) (msg : heartbeatMessage) : Option String :=
  if msg.PeerID = "" ∨ msg.Sig = "" ∨ msg.Timestamp = "" then some "missing fields"
  else if isMem msg.PeerID = false then some "peer not a member"
  else if clusterID ≠ "" ∧ msg.ClusterID ≠ "" ∧ msg.ClusterID ≠ clusterID then
    some "cluster_id mismatch"
  else
    match parseTs msg.Timestamp with
    | none => some "invalid timestamp"
    | some ts =>
      if ts > now + heartbeatWindow ∨ ts < now - heartbeatWindow then
        some "timestamp out of window"
      else sigCheck msg ts

/-- Model of the Go `membershipPushResponse` struct. -/
structure membershipPushResponse where
  Applied : Bool
  Error : String
deriving DecidableEq, Repr

/-- Result of one run of the membership-push stream handler:
the updated manager, the JSON response written back, whether
`notifyMembershipApplied` fired (the stored `issued_at` moved forward),
and the fanout pushes performed as `(target peer, forwarded snapshot)`
pairs. -/
structure PushOutcome where
  manager : Manager
  resp : membershipPushResponse
  notified : Bool
  fanout : List (String × Snapshot)
deriving DecidableEq, Repr

/-- Model of `fanoutSnapshot` (membership push file): push the snapshot
to every currently connected peer except the source. -/
def fanoutSnapshot (connected : List String) (source : String) (s : Snapshot) :
    List (String × Snapshot) :=
  (connected.filter (fun q => q ≠ source)).map (fun q => (q, s))

/-- Model of the stream handler registered by
`registerMembershipPushHandler` (membership push file), after a
successful JSON decode on a live connection: run `Apply`, answer
`{applied:false, error}` on failure, otherwise answer `{applied:true}`,
record whether the stored `issued_at` advanced, and fan out the received
snapshot exactly when the stream's remote peer equals the snapshot's
issuer. -/
def handleMembershipPush (adminSig : AdminProof → Option String)
    (snapSig : Snapshot → Option String) (now : Int) (m : Manager)
    (remote : String) (s : Snapshot) (connected : List String) : PushOutcome :=
  let before := m.snapshot.IssuedAt
  match m.Apply adminSig snapSig now s with
  | (_, some e) =>
    { manager := m
      resp := { Applied := false, Error := e }
      notified := false
      fanout := [] }
  | (m2, none) =>
    let after := m2.snapshot.IssuedAt
    { manager := m2
      resp := { Applied := true, Error := "" }
      notified := after > before
      fanout :=
        if remote = s.IssuerPeerID then fanoutSnapshot connected remote s else [] }

/-- Field-for-field model of the Go `status.Record` struct (the version
paired with `mergeStatusRecords` keyed on `last_seen_at`). -/
structure Record where
  PeerID : String
  LastRemoteAddr : String
  LastSeenAt : Int
  Reachability : String
  ObservedBy : String
deriving DecidableEq, Repr

/-- Model of `recordTimestamp` (bootstrap.go): the record's
`last_seen_at` as a UTC instant. -/
def recordTimestamp (r : Record) : Int := r.LastSeenAt

/-- Model of `recordIsNewer` (bootstrap.go): strict `After` on the
record timestamps. -/
def recordIsNewer (a b : Record) : Prop := recordTimestamp a > recordTimestamp b

instance : DecidableRel recordIsNewer := fun a b =>
  inferInstanceAs (Decidable (recordTimestamp a > recordTimestamp b))

/-- One iteration of the merge loop in `mergeStatusRecords`: the Go map
`merged` is modelled as the list of its entries in insertion order;
records with an empty `PeerID` are skipped, a first record for a key is
inserted, and a later record replaces the stored one only when strictly
newer. -/
def mergeStep (acc : List Record) (rec : Record) : List Record :=
  if rec.PeerID = "" then acc
  else
    match acc.find? (fun r => r.PeerID == rec.PeerID) with
    | none => acc ++ [rec]
    | some prev =>
      if recordIsNewer rec prev then
        acc.map (fun r => if r.PeerID == rec.PeerID then rec else r)
      else acc

/-- Model of `mergeStatusRecords` (bootstrap.go): fold the input through
the keyed map and return the merged rows sorted by `PeerID`. -/
def mergeStatusRecords (l : List Record) : List Record :=
  List.insertionSort (fun a b => strLe a.PeerID b.PeerID) (l.foldl mergeStep [])

/-- Model of the merging performed by `Node.ClusterStatus`
(bootstrap.go) on the successful path: the local store rows plus the
`local`-scope responses obtained from the connected peers, merged by
`mergeStatusRecords`.  Peers that fail or are marked unsupported
contribute no response list. -/
def ClusterStatus (localRows : List Record) (peerResponses : List (List Record)) :
    List Record :=
  mergeStatusRecords (localRows ++ peerResponses.flatten)

/-- A batch of `Apply` calls on a manager: each step carries the two
crypto-oracle outcomes, the wall clock at the call, and the incoming
snapshot. -/
def applySeq (m : Manager)
    (steps : List ((AdminProof → Option String) × (Snapshot → Option String) × Int × Snapshot)) :
    Manager :=
  steps.foldl (fun acc st => (acc.Apply st.1 st.2.1 st.2.2.1 st.2.2.2).1) m

/-- Invariant carried by every reachable manager: the member-set map
holds exactly the stored snapshot's members, and that member list is the
normalization of some raw list. -/
def ManagerWF (m : Manager) : Prop :=
  m.memberSet = m.snapshot.Members ∧ ∃ l0, m.snapshot.Members = normalizeMembers l0

/-- Specification-side definition, following the claim wording for the
status merge: the greatest `last_seen_at` among the input rows carrying
the given `PeerID` (`none` when there is no such row). -/
def maxSeen (l : List Record) (k : String) : Option Int :=
  (l.filter (fun r => r.PeerID == k)).foldl
    (fun acc r =>
      match acc with
      | none => some r.LastSeenAt
      | some t => some (max t r.LastSeenAt)) none

/-- Specification-side definition, following the claim wording for the
status merge: among the input rows with the given `PeerID`, the row with
the greatest `last_seen_at`, ties resolved to the earlier-encountered
row. -/
def firstMaxRow (l : List Record) (k : String) : Option Record :=
  match maxSeen l k with
  | none => none
  | some t => (l.filter (fun r => r.PeerID == k)).find? (fun r => r.LastSeenAt == t)

/-- Crypto oracle fixture: the external admin-proof signature check
succeeds. -/
def oracleOK : AdminProof → Option String := fun _ => none

/-- Crypto oracle fixture: the external snapshot signature check
succeeds. -/
def snapOK : Snapshot → Option String := fun _ => none

/-- Crypto oracle fixture: the external snapshot signature check fails
with the error `verifySnapshotSignature` produces for a wrong
signature. -/
def snapBad : Snapshot → Option String := fun _ => some "snapshot signature invalid"

/-- Test snapshot: issued at instant 5 by peer `P` over members
`[A]`. -/
def sampleSnap : Snapshot :=
  { ClusterID := "c1", IssuedAt := 5, IssuerPeerID := "P", Members := ["A"],
    Proof := emptyAdminProof, Sig := "x" }

/-- Test snapshot: issued at instant 7 by peer `P` over members
`[A, B]`. -/
def sampleSnap7 : Snapshot :=
  { ClusterID := "c1", IssuedAt := 7, IssuerPeerID := "P", Members := ["A", "B"],
    Proof := emptyAdminProof, Sig := "y" }

/-- Test manager fresh from `NewManager`: cluster `c1`, no system public
key, local peer `L`, initial member `A`. -/
def sampleManager0 : Manager := NewManager "c1" "" "L" ["A"]

/-- Test manager after one successful `Apply` of `sampleSnap` (stored
`issued_at` is 5). -/
def sampleManager : Manager := (sampleManager0.Apply oracleOK snapOK 0 sampleSnap).1

/-- Test manager with a configured system public key (cluster `c1`). -/
def sampleManagerKey : Manager := NewManager "c1" "K" "L" ["A"]

/-! ### Helper lemmas about trimming and member-list normalization -/

theorem trimChars_eq_rdropWhile (l : List Char) :
    trimChars l =
      List.rdropWhile Char.isWhitespace (List.dropWhile Char.isWhitespace l) := rfl

theorem trimChars_idem (l : List Char) : trimChars (trimChars l) = trimChars l := by
  rw [trimChars_eq_rdropWhile, trimChars_eq_rdropWhile]
  have hpre :
      List.rdropWhile Char.isWhitespace (List.dropWhile Char.isWhitespace l) <+:
        List.dropWhile Char.isWhitespace l :=
    List.rdropWhile_prefix _ _
  set a := List.dropWhile Char.isWhitespace l with ha
  set t := List.rdropWhile Char.isWhitespace a with ht
  have hdrop : List.dropWhile Char.isWhitespace t = t := by
    rw [List.dropWhile_eq_self_iff]
    intro hl
    have hlen : 0 < a.length := lt_of_lt_of_le hl hpre.length_le
    have hgetEq : t.get ⟨0, hl⟩ = a.get ⟨0, hlen⟩ := by
      simp only [List.get_eq_getElem]
      exact hpre.getElem hl
    rw [hgetEq]
    exact List.dropWhile_get_zero_not _ _ hlen
  rw [hdrop, ht, List.rdropWhile_idempotent]

theorem trimS_idem (s : String) : trimS (trimS s) = trimS s :=
  congrArg String.mk (trimChars_idem s.data)

theorem mem_normalizeMembers {x : String} {l : List String} :
    x ∈ normalizeMembers l ↔ (x ∈ l.map trimS ∧ x ≠ "") := by
  simp [normalizeMembers, List.mem_insertionSort, List.mem_dedup, List.mem_filter]

theorem normalizeMembers_sorted (l : List String) :
    (normalizeMembers l).Sorted strLe :=
  List.sorted_insertionSort strLe _

theorem normalizeMembers_nodup (l : List String) : (normalizeMembers l).Nodup :=
  ((List.perm_insertionSort strLe _).nodup_iff).mpr (List.nodup_dedup _)

theorem normalizeMembers_entry {x : String} {l : List String}
    (hx : x ∈ normalizeMembers l) : trimS x = x ∧ x ≠ "" := by
  rcases mem_normalizeMembers.mp hx with ⟨hmem, hne⟩
  rcases List.mem_map.mp hmem with ⟨raw, _, hraw⟩
  exact ⟨by rw [← hraw, trimS_idem], hne⟩

theorem normalizeMembers_eq_of_mem_iff {l l2 : List String}
    (h : ∀ x, (x ∈ l.map trimS ∧ x ≠ "") ↔ (x ∈ l2.map trimS ∧ x ≠ "")) :
    normalizeMembers l = normalizeMembers l2 := by
  apply List.eq_of_perm_of_sorted _ (normalizeMembers_sorted l) (normalizeMembers_sorted l2)
  apply List.perm_of_nodup_nodup_toFinset_eq (normalizeMembers_nodup l)
    (normalizeMembers_nodup l2)
  apply Finset.ext
  intro x
  rw [List.mem_toFinset, List.mem_toFinset, mem_normalizeMembers, mem_normalizeMembers]
  exact h x

/-! ### Membership manager: Apply semantics (claims C1-C4) -/

theorem apply_success_cases (m : Manager) (adminSig : AdminProof → Option String)
    (snapSig : Snapshot → Option String) (now : Int) (s : Snapshot)
    (h : (m.Apply adminSig snapSig now s).2 = none) :
    ((m.Apply adminSig snapSig now s).1 = m ∧ ¬ s.IssuedAt > m.snapshot.IssuedAt) ∨
      ((m.Apply adminSig snapSig now s).1.snapshot.IssuedAt = s.IssuedAt ∧
        s.IssuedAt > m.snapshot.IssuedAt) := by
  simp only [Manager.Apply] at h ⊢
  cases hv : m.validateSnapshot adminSig snapSig now
      { s with Members := normalizeMembers s.Members } with
  | some e =>
    rw [hv] at h
    simp at h
  | none =>
    by_cases hi : s.IssuedAt > m.snapshot.IssuedAt
    · right
      simp [hi]
    · left
      simp [hi]

/-- Claim C3: a snapshot that passes all validation checks but whose
`issued_at` is not strictly newer than the stored one makes `Apply`
return success as a pure no-op: the manager (stored snapshot and member
set) is unchanged and no error is reported. -/
theorem apply_stale_noop (m : Manager) (adminSig : AdminProof → Option String)
    (snapSig : Snapshot → Option String) (now : Int) (s : Snapshot)
    (hval : m.validateSnapshot adminSig snapSig now
      { s with Members := normalizeMembers s.Members } = none)
    (hstale : ¬ s.IssuedAt > m.snapshot.IssuedAt) :
    m.Apply adminSig snapSig now s = (m, none) := by
  simp only [Manager.Apply]
  rw [hval]
  simp [hstale]

theorem apply_stale_noop_witness :
    sampleManager.Apply oracleOK snapOK 0 sampleSnap = (sampleManager, none) :=
  apply_stale_noop sampleManager oracleOK snapOK 0 sampleSnap (by decide) (by decide)

/-- Claim C2 counterexample: on `sampleManager0`, applying `sampleSnap`
and then applying the very same snapshot again gives two successive
`Apply` calls that both return success (`none`), while the `issued_at`
of the snapshot applied by the later call (5) is not strictly greater
than that of the earlier call (also 5): the second success is a stale
no-op. -/
theorem apply_success_pair_equal_issuedAt :
    (sampleManager0.Apply oracleOK snapOK 0 sampleSnap).2 = none ∧
      (sampleManager.Apply oracleOK snapOK 0 sampleSnap).2 = none ∧
      ¬ sampleSnap.IssuedAt > sampleSnap.IssuedAt := by
  refine ⟨by decide, by decide, by decide⟩

/-- Claim C2 (amended): for successive `Apply` calls that both return
success and both actually replace the stored snapshot, the later
snapshot's `issued_at` is strictly greater than the earlier one's. -/
theorem apply_replacing_pair_strict_mono (m : Manager)
    (a1 a2 : AdminProof → Option String) (g1 g2 : Snapshot → Option String)
    (n1 n2 : Int) (s s2 : Snapshot)
    (h1 : (m.Apply a1 g1 n1 s).2 = none)
    (hrep1 : (m.Apply a1 g1 n1 s).1 ≠ m)
    (h2 : ((m.Apply a1 g1 n1 s).1.Apply a2 g2 n2 s2).2 = none)
    (hrep2 : ((m.Apply a1 g1 n1 s).1.Apply a2 g2 n2 s2).1 ≠ (m.Apply a1 g1 n1 s).1) :
    s2.IssuedAt > s.IssuedAt := by
  rcases apply_success_cases m a1 g1 n1 s h1 with ⟨heq, _⟩ | ⟨hstore1, _⟩
  · exact absurd heq hrep1
  · rcases apply_success_cases _ a2 g2 n2 s2 h2 with ⟨heq, _⟩ | ⟨_, hgt2⟩
    · exact absurd heq hrep2
    · rw [hstore1] at hgt2
      exact hgt2

theorem apply_replacing_pair_strict_mono_witness : sampleSnap7.IssuedAt > sampleSnap.IssuedAt :=
  apply_replacing_pair_strict_mono sampleManager0 oracleOK oracleOK snapOK snapOK 0 0
    sampleSnap sampleSnap7 (by decide) (by decide) (by decide) (by decide)

/-- Claim C1 counterexample: a stale push (`sampleSnap`, `issued_at` 5)
arriving at `sampleManager` (stored `issued_at` already 5) from a remote
peer equal to the snapshot's issuer leaves the stored snapshot unchanged
(`notified = false`, manager unchanged) and yet the handler still
performs the one-hop fanout to the other connected peer, contradicting
the claim that no fanout happens when the stored `issued_at` did not
move forward. -/
theorem push_stale_still_fans_out :
    (handleMembershipPush oracleOK snapOK 0 sampleManager "P" sampleSnap ["P", "B"]).fanout
        = [("B", sampleSnap)] ∧
      (handleMembershipPush oracleOK snapOK 0 sampleManager "P" sampleSnap ["P", "B"]).manager
        = sampleManager ∧
      (handleMembershipPush oracleOK snapOK 0 sampleManager "P" sampleSnap
        ["P", "B"]).notified = false := by
  refine ⟨by decide, by decide, by decide⟩

/-- Claim C1 (amended): the membership-push handler performs the one-hop
fanout (to every currently connected peer except the pusher, forwarding
the received snapshot) if and only if `Apply` returned success — even a
stale no-op success — and the remote peer on the stream equals
`snapshot.issuer_peer_id`; the forward transition of the stored
`issued_at` gates only the applied-notification, not the fanout. -/
theorem handleMembershipPush_fanout_iff (adminSig : AdminProof → Option String)
    (snapSig : Snapshot → Option String) (now : Int) (m : Manager)
    (remote : String) (s : Snapshot) (connected : List String) :
    (handleMembershipPush adminSig snapSig now m remote s connected).fanout =
      if (m.Apply adminSig snapSig now s).2 = none ∧ remote = s.IssuerPeerID
      then fanoutSnapshot connected remote s
      else [] := by
  unfold handleMembershipPush
  rcases hap : m.Apply adminSig snapSig now s with ⟨m2, err⟩
  cases err with
  | none => by_cases hr : remote = s.IssuerPeerID <;> simp [hap, hr]
  | some e => simp [hap]

/-- Claim C4 counterexample: with a system public key configured
(`sampleManagerKey`) and a snapshot whose external signature check fails
(`snapBad`) and whose embedded admin proof is also invalid (role is not
`admin`), `validateSnapshot` returns the admin-proof error, not the
snapshot-signature error claimed by the spec: the admin proof is checked
before signature verification. -/
theorem validate_returns_admin_error_first :
    sampleManagerKey.validateSnapshot oracleOK snapBad 0 sampleSnap
        = some "admin proof role invalid" ∧
      (some "admin proof role invalid" : Option String) ≠ snapBad sampleSnap := by
  refine ⟨by decide, by decide⟩

/-- Claim C4 (amended): `Apply` validates in the order (1) `cluster_id`,
(2) `issued_at` non-zero, (3) `members` non-empty, (4) `issuer_peer_id`
non-empty, (5) `sig` non-empty, (6) admin proof when a system public key
is configured, then signature verification, then the strictly-newer
check; whenever the first five checks pass, a configured key is present
and the admin proof fails with error `e`, `validateSnapshot` returns `e`
regardless of the snapshot-signature outcome — so in the claim's
scenario the error returned is the admin-proof error. -/
theorem validateSnapshot_adminProof_before_sig (m : Manager)
    (adminSig : AdminProof → Option String) (snapSig : Snapshot → Option String)
    (now : Int) (s : Snapshot) (e : String)
    (hc : trimS s.ClusterID = m.clusterID) (hi : s.IssuedAt ≠ 0) (hm : s.Members ≠ [])
    (hp : trimS s.IssuerPeerID ≠ "") (hs : trimS s.Sig ≠ "")
    (hkey : m.hasPubKey = true)
    (ha : m.validateAdminProof adminSig now s.Proof s.IssuerPeerID = some e) :
    m.validateSnapshot adminSig snapSig now s = some e := by
  unfold Manager.validateSnapshot
  rw [hkey]
  simp [hc, hi, hm, hp, hs, ha]

theorem validateSnapshot_adminProof_before_sig_witness :
    sampleManagerKey.validateSnapshot oracleOK snapBad 0 sampleSnap
      = some "admin proof role invalid" :=
  validateSnapshot_adminProof_before_sig sampleManagerKey oracleOK snapBad 0 sampleSnap
    "admin proof role invalid" (by decide) (by decide) (by decide) (by decide) (by decide)
    (by decide) (by decide)

/-! ### Runtime state machine (claims C5 and C7) -/

/-- Claim C5: on every evaluation trigger the state becomes
`unconfigured` exactly when there is no manager, the local peer is not a
member, or the member set is empty; otherwise, with `N` the member count
and `k` one plus the number of connected member peers, the state becomes
`healthy` exactly when `2k > N` and `degraded` exactly otherwise —
hence `healthy` implies `2k > N`. -/
theorem evaluateRuntimeState_spec (membership : Option Manager) (localID : String)
    (peers : List (String × Bool)) :
    (evaluateRuntimeState membership localID peers = RuntimeState.unconfigured ↔
      (membership = none ∨ ∃ m, membership = some m ∧
        (m.IsMember localID = false ∨ m.snapshot.Members = []))) ∧
      (evaluateRuntimeState membership localID peers = RuntimeState.healthy ↔
        (∃ m, membership = some m ∧ m.IsMember localID = true ∧
          m.snapshot.Members ≠ [] ∧
          2 * (1 + (peers.filter (fun p => p.2 && m.IsMember p.1)).length) >
            m.snapshot.Members.length)) ∧
      (evaluateRuntimeState membership localID peers = RuntimeState.degraded ↔
        (∃ m, membership = some m ∧ m.IsMember localID = true ∧
          m.snapshot.Members ≠ [] ∧
          ¬ 2 * (1 + (peers.filter (fun p => p.2 && m.IsMember p.1)).length) >
            m.snapshot.Members.length)) := by
  cases membership with
  | none => simp [evaluateRuntimeState]
  | some m =>
    by_cases h1 : m.IsMember localID = false
    · simp [evaluateRuntimeState, h1]
    · have h1t : m.IsMember localID = true := by
        cases hb : m.IsMember localID
        · exact absurd hb h1
        · rfl
      by_cases h2 : m.snapshot.Members = []
      · simp [evaluateRuntimeState, h1t, h2]
      · have hlen : m.snapshot.Members.length ≠ 0 := by
          simpa [List.length_eq_zero] using h2
        by_cases h3 :
            (1 + (peers.filter (fun p => p.2 && m.IsMember p.1)).length) * 2 >
              m.snapshot.Members.length
        · constructor
          · simp [evaluateRuntimeState, h1t, hlen, h3, h2]
          constructor
          · simp [evaluateRuntimeState, h1t, hlen, h3, h2]
            omega
          · simp [evaluateRuntimeState, h1t, hlen, h3, h2]
            omega
        · constructor
          · simp [evaluateRuntimeState, h1t, hlen, h3, h2]
          constructor
          · simp [evaluateRuntimeState, h1t, hlen, h3, h2]
            omega
          · simp [evaluateRuntimeState, h1t, hlen, h3, h2]
            omega

/-- Claim C7: the connection handler closes an inbound connection
exactly when the runtime state is not `unconfigured` and the remote peer
is not a current member; while `unconfigured`, `allowPeer` admits every
peer — so a configured node never retains a connection from a
non-member. -/
theorem onPeerConnected_spec (st : RuntimeState) (membership : Option Manager)
    (hbMarks stMarks : List String) (peerID : String) :
    ((onPeerConnected st membership hbMarks stMarks peerID).1 = true ↔
      (st ≠ RuntimeState.unconfigured ∧ isMemberN membership peerID = false)) ∧
      allowPeer RuntimeState.unconfigured membership peerID = true := by
  constructor
  · by_cases h : st = RuntimeState.unconfigured
    · simp [onPeerConnected, allowPeer, h]
    · cases hb : isMemberN membership peerID <;>
        simp [onPeerConnected, allowPeer, h, hb]
  · simp [allowPeer]

/-! ### Reachable-manager invariants (claim C10) -/

theorem managerWF_NewManager (cid spk lid : String) (init : List String) :
    ManagerWF (NewManager cid spk lid init) :=
  ⟨rfl, ⟨init, rfl⟩⟩

theorem managerWF_apply (m : Manager) (adminSig : AdminProof → Option String)
    (snapSig : Snapshot → Option String) (now : Int) (s : Snapshot)
    (h : ManagerWF m) : ManagerWF (m.Apply adminSig snapSig now s).1 := by
  simp only [Manager.Apply]
  cases hv : m.validateSnapshot adminSig snapSig now
      { s with Members := normalizeMembers s.Members } with
  | some e => simpa using h
  | none =>
    by_cases hi : s.IssuedAt > m.snapshot.IssuedAt
    · simp only [hi, not_true_eq_false, if_false]
      exact ⟨rfl, ⟨s.Members, rfl⟩⟩
    · simpa [hi] using h

theorem managerWF_applySeq (m : Manager)
    (steps : List ((AdminProof → Option String) × (Snapshot → Option String) × Int × Snapshot))
    (h : ManagerWF m) : ManagerWF (applySeq m steps) := by
  induction steps generalizing m with
  | nil => simpa [applySeq] using h
  | cons st rest ih =>
    have hstep : applySeq m (st :: rest) =
        applySeq (m.Apply st.1 st.2.1 st.2.2.1 st.2.2.2).1 rest := by
      simp [applySeq]
    rw [hstep]
    exact ih _ (managerWF_apply m st.1 st.2.1 st.2.2.1 st.2.2.2 h)

/-- Claim C10: for every manager reachable by `NewManager` followed by
any sequence of `Apply` calls, `IsMember p` holds exactly when `p` is in
the stored snapshot's member list, and that member list is sorted
lexicographically, duplicate-free, and contains only whitespace-trimmed
non-empty entries. -/
theorem manager_member_invariants (cid spk lid : String) (init : List String)
    (steps : List ((AdminProof → Option String) × (Snapshot → Option String) × Int × Snapshot))
    (p : String) :
    ((applySeq (NewManager cid spk lid init) steps).IsMember p = true ↔
      p ∈ (applySeq (NewManager cid spk lid init) steps).snapshot.Members) ∧
      (applySeq (NewManager cid spk lid init) steps).snapshot.Members.Sorted strLe ∧
      (applySeq (NewManager cid spk lid init) steps).snapshot.Members.Nodup ∧
      ∀ x ∈ (applySeq (NewManager cid spk lid init) steps).snapshot.Members,
        trimS x = x ∧ x ≠ "" := by
  obtain ⟨hset, l0, hl0⟩ :=
    managerWF_applySeq _ steps (managerWF_NewManager cid spk lid init)
  refine ⟨?_, ?_, ?_, ?_⟩
  · rw [Manager.IsMember, hset]
    simp
  · rw [hl0]
    exact normalizeMembers_sorted l0
  · rw [hl0]
    exact normalizeMembers_nodup l0
  · intro x hx
    rw [hl0] at hx
    exact normalizeMembers_entry hx

theorem manager_member_invariants_witness :
    (applySeq (NewManager "c1" "" "L" [" b ", "a"]) []).IsMember "b" = true ↔
      "b" ∈ (applySeq (NewManager "c1" "" "L" [" b ", "a"]) []).snapshot.Members :=
  (manager_member_invariants "c1" "" "L" [" b ", "a"] [] "b").1

/-! ### Canonical snapshot bytes (claim C8) -/

/-- Claim C8: the canonical signing bytes equal
`cluster_id|issued_at|issuer_peer_id|M` with `M` the deduplicated,
lexicographically sorted member list joined by commas, and they are
invariant under every change of the member list that preserves the set
of trimmed non-empty entries (permutation, duplication, whitespace
padding); hence any verification function applied to the canonical
bytes gives the same result for every normalization-equivalent member
ordering. -/
theorem canonicalSnapshot_spec (fmt : Int → String) (verify : String → Bool)
    (s : Snapshot) (l2 : List String)
    (h : ∀ x, (x ∈ s.Members.map trimS ∧ x ≠ "") ↔ (x ∈ l2.map trimS ∧ x ≠ "")) :
    canonicalSnapshot fmt s =
        s.ClusterID ++ "|" ++ fmt s.IssuedAt ++ "|" ++ s.IssuerPeerID ++ "|" ++
          String.intercalate "," (normalizeMembers s.Members) ∧
      canonicalSnapshot fmt { s with Members := l2 } = canonicalSnapshot fmt s ∧
      verify (canonicalSnapshot fmt { s with Members := l2 }) =
        verify (canonicalSnapshot fmt s) := by
  have hnorm : normalizeMembers l2 = normalizeMembers s.Members :=
    normalizeMembers_eq_of_mem_iff (fun x => (h x).symm)
  have heq : canonicalSnapshot fmt { s with Members := l2 } = canonicalSnapshot fmt s := by
    simp [canonicalSnapshot, hnorm]
  refine ⟨?_, heq, congrArg verify heq⟩
  simp [canonicalSnapshot, String.intercalate, String.intercalate.go, String.append_assoc]

theorem canonicalSnapshot_spec_witness :
    canonicalSnapshot toString
        { ClusterID := "c1", IssuedAt := 5, IssuerPeerID := "P",
          Members := [" a ", "b", "b", "a"], Proof := emptyAdminProof, Sig := "x" } =
      canonicalSnapshot toString
        { ClusterID := "c1", IssuedAt := 5, IssuerPeerID := "P",
          Members := ["b", "a"], Proof := emptyAdminProof, Sig := "x" } :=
  (canonicalSnapshot_spec toString (fun _ => true)
      { ClusterID := "c1", IssuedAt := 5, IssuerPeerID := "P",
        Members := ["b", "a"], Proof := emptyAdminProof, Sig := "x" }
      [" a ", "b", "b", "a"]
      (by
        intro x
        have e1 : ["b", "a"].map trimS = ["b", "a"] := by decide
        have e2 : [" a ", "b", "b", "a"].map trimS = ["a", "b", "b", "a"] := by decide
        rw [e1, e2]
        simp only [List.mem_cons, List.not_mem_nil, or_false]
        tauto)).2.1

/-! ### Heartbeat validation (claim C6) -/

/-- Claim C6: an inbound heartbeat is accepted only if the sender is a
current member, the cluster ids match whenever both sides have one, the
parsed timestamp lies within plus or minus five minutes of local UTC,
and the signature check succeeds; at the window boundary a heartbeat
timestamped `now - 4m59s` passes (and is accepted when everything else
holds) while one timestamped `now - 5m01s` is rejected with exactly
`timestamp out of window`. -/
theorem validateHeartbeat_spec (isMem : String → Bool) (clusterID : String)
    (parseTs : String → Option Int) (sigCheck : heartbeatMessage → Int → Option String)
    (now : Int) (msg : heartbeatMessage) :
    (validateHeartbeat isMem clusterID parseTs sigCheck now msg = none →
      isMem msg.PeerID = true ∧
        (clusterID ≠ "" → msg.ClusterID ≠ "" → msg.ClusterID = clusterID) ∧
        ∃ ts, parseTs msg.Timestamp = some ts ∧
          now - heartbeatWindow ≤ ts ∧ ts ≤ now + heartbeatWindow ∧
          sigCheck msg ts = none) ∧
      (msg.PeerID ≠ "" → msg.Sig ≠ "" → msg.Timestamp ≠ "" →
        isMem msg.PeerID = true →
        ¬ (clusterID ≠ "" ∧ msg.ClusterID ≠ "" ∧ msg.ClusterID ≠ clusterID) →
        parseTs msg.Timestamp = some (now - 299000000000) →
        sigCheck msg (now - 299000000000) = none →
        validateHeartbeat isMem clusterID parseTs sigCheck now msg = none) ∧
      (msg.PeerID ≠ "" → msg.Sig ≠ "" → msg.Timestamp ≠ "" →
        isMem msg.PeerID = true →
        ¬ (clusterID ≠ "" ∧ msg.ClusterID ≠ "" ∧ msg.ClusterID ≠ clusterID) →
        parseTs msg.Timestamp = some (now - 301000000000) →
        validateHeartbeat isMem clusterID parseTs sigCheck now msg
          = some "timestamp out of window") := by
  refine ⟨?_, ?_, ?_⟩
  · intro h
    unfold validateHeartbeat at h
    by_cases h1 : msg.PeerID = "" ∨ msg.Sig = "" ∨ msg.Timestamp = ""
    · simp [h1] at h
    · rw [if_neg h1] at h
      cases hm : isMem msg.PeerID with
      | false => rw [hm] at h; simp at h
      | true =>
        rw [hm] at h
        simp only [Bool.true_eq_false, if_false] at h
        by_cases h3 : clusterID ≠ "" ∧ msg.ClusterID ≠ "" ∧ msg.ClusterID ≠ clusterID
        · rw [if_pos h3] at h; simp at h
        · rw [if_neg h3] at h
          cases hp : parseTs msg.Timestamp with
          | none => rw [hp] at h; simp at h
          | some ts =>
            rw [hp] at h
            by_cases h4 : ts > now + heartbeatWindow ∨ ts < now - heartbeatWindow
            · simp [h4] at h
            · simp only [h4, if_false] at h
              refine ⟨rfl, ?_, ts, rfl, by omega, by omega, h⟩
              intro hc hmc
              by_contra hne
              exact h3 ⟨hc, hmc, hne⟩
  · intro h1 h2 h3 hm h5 hp hsig
    unfold validateHeartbeat
    rw [if_neg (by simp [h1, h2, h3]), hm]
    simp only [Bool.true_eq_false, if_false]
    rw [if_neg h5, hp]
    have hcond : ¬ (now - 299000000000 > now + heartbeatWindow ∨
        now - 299000000000 < now - heartbeatWindow) := by
      simp only [heartbeatWindow]
      omega
    show (if now - 299000000000 > now + heartbeatWindow ∨
        now - 299000000000 < now - heartbeatWindow
      then some "timestamp out of window"
      else sigCheck msg (now - 299000000000)) = none
    rw [if_neg hcond]
    exact hsig
  · intro h1 h2 h3 hm h5 hp
    unfold validateHeartbeat
    rw [if_neg (by simp [h1, h2, h3]), hm]
    simp only [Bool.true_eq_false, if_false]
    rw [if_neg h5, hp]
    have hcond : now - 301000000000 > now + heartbeatWindow ∨
        now - 301000000000 < now - heartbeatWindow := by
      simp only [heartbeatWindow]
      omega
    show (if now - 301000000000 > now + heartbeatWindow ∨
        now - 301000000000 < now - heartbeatWindow
      then some "timestamp out of window"
      else sigCheck msg (now - 301000000000)) = some "timestamp out of window"
    rw [if_pos hcond]

theorem validateHeartbeat_spec_witness :
    validateHeartbeat (fun _ => true) "" (fun _ => some 701000000000)
        (fun _ _ => none) 1000000000000
        { ClusterID := "c1", PeerID := "P", Timestamp := "T", Sig := "S" } = none :=
  (validateHeartbeat_spec (fun _ => true) "" (fun _ => some 701000000000)
      (fun _ _ => none) 1000000000000
      { ClusterID := "c1", PeerID := "P", Timestamp := "T", Sig := "S" }).2.1
    (by decide) (by decide) (by decide) (by decide) (by decide) (by decide) (by decide)

/-! ### Status merge (claim C9) -/

theorem maxSeen_nil (k : String) : maxSeen [] k = none := rfl

theorem maxSeen_append (l : List Record) (rec : Record) (k : String) :
    maxSeen (l ++ [rec]) k =
      if (rec.PeerID == k) = true then
        match maxSeen l k with
        | none => some rec.LastSeenAt
        | some t => some (max t rec.LastSeenAt)
      else maxSeen l k := by
  by_cases h : (rec.PeerID == k) = true
  · rw [if_pos h]
    unfold maxSeen
    rw [List.filter_append, List.foldl_append]
    simp [h]
  · rw [if_neg h]
    unfold maxSeen
    rw [List.filter_append]
    simp [h]

theorem maxSeen_eq_none_iff (l : List Record) (k : String) :
    maxSeen l k = none ↔ l.filter (fun r => r.PeerID == k) = [] := by
  induction l using List.reverseRecOn with
  | nil => simp [maxSeen_nil]
  | append_singleton l rec ih =>
    rw [maxSeen_append, List.filter_append]
    by_cases h : (rec.PeerID == k) = true
    · rw [if_pos h]
      cases hm : maxSeen l k <;> simp [h]
    · rw [if_neg h]
      simpa [h] using ih

theorem maxSeen_le (l : List Record) (k : String) (t : Int)
    (ht : maxSeen l k = some t) :
    ∀ r ∈ l.filter (fun q => q.PeerID == k), r.LastSeenAt ≤ t := by
  induction l using List.reverseRecOn generalizing t with
  | nil => simp [maxSeen_nil] at ht
  | append_singleton l rec ih =>
    rw [maxSeen_append] at ht
    intro r hr
    rw [List.filter_append] at hr
    by_cases h : (rec.PeerID == k) = true
    · rw [if_pos h] at ht
      rcases List.mem_append.mp hr with hrl | hrr
      · cases hm : maxSeen l k with
        | none =>
          have : l.filter (fun q => q.PeerID == k) = [] := (maxSeen_eq_none_iff l k).mp hm
          rw [this] at hrl
          cases hrl
        | some t0 =>
          rw [hm] at ht
          have h1 : r.LastSeenAt ≤ t0 := ih t0 hm r hrl
          have h2 : some (max t0 rec.LastSeenAt) = some t := ht
          have h3 : max t0 rec.LastSeenAt = t := by injection h2
          calc r.LastSeenAt ≤ t0 := h1
            _ ≤ max t0 rec.LastSeenAt := le_max_left _ _
            _ = t := h3
      · have hr2 : r = rec := by simpa [h] using hrr
        subst hr2
        cases hm : maxSeen l k with
        | none =>
          rw [hm] at ht
          have : r.LastSeenAt = t := by injection ht
          exact le_of_eq this
        | some t0 =>
          rw [hm] at ht
          have h3 : max t0 r.LastSeenAt = t := by injection ht
          calc r.LastSeenAt ≤ max t0 r.LastSeenAt := le_max_right _ _
            _ = t := h3
    · rw [if_neg h] at ht
      rcases List.mem_append.mp hr with hrl | hrr
      · exact ih t ht r hrl
      · simp [h] at hrr

theorem maxSeen_attained (l : List Record) (k : String) (t : Int)
    (ht : maxSeen l k = some t) :
    ∃ r ∈ l.filter (fun q => q.PeerID == k), r.LastSeenAt = t := by
  induction l using List.reverseRecOn generalizing t with
  | nil => simp [maxSeen_nil] at ht
  | append_singleton l rec ih =>
    rw [maxSeen_append] at ht
    by_cases h : (rec.PeerID == k) = true
    · rw [if_pos h] at ht
      cases hm : maxSeen l k with
      | none =>
        rw [hm] at ht
        refine ⟨rec, ?_, by injection ht⟩
        rw [List.filter_append]
        simp [h]
      | some t0 =>
        rw [hm] at ht
        have h3 : max t0 rec.LastSeenAt = t := by injection ht
        rcases max_cases t0 rec.LastSeenAt with ⟨hmx, _⟩ | ⟨hmx, _⟩
        · obtain ⟨r, hrmem, hrt⟩ := ih t0 hm
          refine ⟨r, ?_, by rw [hrt, ← h3, hmx]⟩
          rw [List.filter_append]
          exact List.mem_append.mpr (Or.inl hrmem)
        · refine ⟨rec, ?_, by rw [← h3, hmx]⟩
          rw [List.filter_append]
          simp [h]
    · rw [if_neg h] at ht
      obtain ⟨r, hrmem, hrt⟩ := ih t ht
      refine ⟨r, ?_, hrt⟩
      rw [List.filter_append]
      exact List.mem_append.mpr (Or.inl hrmem)

theorem firstMaxRow_eq_none_iff (l : List Record) (k : String) :
    firstMaxRow l k = none ↔ l.filter (fun r => r.PeerID == k) = [] := by
  constructor
  · intro h
    unfold firstMaxRow at h
    cases hm : maxSeen l k with
    | none => exact (maxSeen_eq_none_iff l k).mp hm
    | some t =>
      rw [hm] at h
      obtain ⟨r, hrmem, hrt⟩ := maxSeen_attained l k t hm
      have : (l.filter (fun q => q.PeerID == k)).find?
          (fun q => q.LastSeenAt == t) = none := h
      rw [List.find?_eq_none] at this
      exact absurd (by simp [hrt]) (this r hrmem)
  · intro h
    unfold firstMaxRow
    have hm : maxSeen l k = none := (maxSeen_eq_none_iff l k).mpr h
    rw [hm]

theorem firstMaxRow_append_other (l : List Record) (rec : Record) (k : String)
    (h : (rec.PeerID == k) = false) :
    firstMaxRow (l ++ [rec]) k = firstMaxRow l k := by
  unfold firstMaxRow
  rw [maxSeen_append, if_neg (by simp [h]), List.filter_append]
  have : [rec].filter (fun r => r.PeerID == k) = [] := by simp [h]
  rw [this, List.append_nil]

theorem firstMaxRow_append_self_first (l : List Record) (rec : Record) (k : String)
    (hfil : l.filter (fun r => r.PeerID == k) = []) (h : (rec.PeerID == k) = true) :
    firstMaxRow (l ++ [rec]) k = some rec := by
  unfold firstMaxRow
  rw [maxSeen_append, if_pos h, (maxSeen_eq_none_iff l k).mpr hfil, List.filter_append, hfil]
  simp [h]

theorem firstMaxRow_append_newer (l : List Record) (rec : Record) (k : String) (t : Int)
    (hm : maxSeen l k = some t) (h : (rec.PeerID == k) = true)
    (hlt : t < rec.LastSeenAt) :
    firstMaxRow (l ++ [rec]) k = some rec := by
  have hm2 : maxSeen (l ++ [rec]) k = some rec.LastSeenAt := by
    rw [maxSeen_append, if_pos h, hm]
    simp [max_eq_right (le_of_lt hlt)]
  simp only [firstMaxRow, hm2]
  rw [List.filter_append, List.find?_append]
  have hnone : (l.filter (fun q => q.PeerID == k)).find?
      (fun q => q.LastSeenAt == rec.LastSeenAt) = none := by
    rw [List.find?_eq_none]
    intro r hr
    have hle : r.LastSeenAt ≤ t := maxSeen_le l k t hm r hr
    simp only [beq_iff_eq]
    omega
  rw [hnone]
  simp [h]

theorem firstMaxRow_append_stale (l : List Record) (rec prev : Record) (k : String) (t : Int)
    (hm : maxSeen l k = some t) (hfm : firstMaxRow l k = some prev)
    (h : (rec.PeerID == k) = true) (hle : rec.LastSeenAt ≤ t) :
    firstMaxRow (l ++ [rec]) k = some prev := by
  have hfind : (l.filter (fun q => q.PeerID == k)).find?
      (fun q => q.LastSeenAt == t) = some prev := by
    unfold firstMaxRow at hfm
    rw [hm] at hfm
    exact hfm
  have hm2 : maxSeen (l ++ [rec]) k = some t := by
    rw [maxSeen_append, if_pos h, hm]
    simp [max_eq_left hle]
  simp only [firstMaxRow, hm2]
  rw [List.filter_append, List.find?_append, hfind]
  rfl

theorem firstMaxRow_lastSeen (l : List Record) (k : String) (prev : Record) (t : Int)
    (hm : maxSeen l k = some t) (hfm : firstMaxRow l k = some prev) :
    prev.LastSeenAt = t := by
  unfold firstMaxRow at hfm
  rw [hm] at hfm
  have := List.find?_some hfm
  simpa [beq_iff_eq] using this

theorem find?_map_upd_other (acc : List Record) (rec : Record) (k : String)
    (h : rec.PeerID ≠ k) :
    (acc.map (fun r => if (r.PeerID == rec.PeerID) = true then rec else r)).find?
        (fun r => r.PeerID == k) =
      acc.find? (fun r => r.PeerID == k) := by
  induction acc with
  | nil => rfl
  | cons a acc ih =>
    by_cases ha : (a.PeerID == rec.PeerID) = true
    · have hak : (a.PeerID == k) = false := by
        have : a.PeerID = rec.PeerID := by simpa [beq_iff_eq] using ha
        simp [this, h]
    
      have hrk : (rec.PeerID == k) = false := by simp [h]
      simp only [List.map_cons, if_pos ha]
      rw [List.find?_cons_of_neg (p := fun (r : Record) => r.PeerID == k) _ (by simp [hrk]),
        List.find?_cons_of_neg (p := fun (r : Record) => r.PeerID == k) _ (by simp [hak])]
      exact ih
    · simp only [List.map_cons, if_neg ha]
      by_cases hak : (a.PeerID == k) = true
      · rw [List.find?_cons_of_pos (p := fun (r : Record) => r.PeerID == k) _ hak,
          List.find?_cons_of_pos (p := fun (r : Record) => r.PeerID == k) _ hak]
      · rw [List.find?_cons_of_neg (p := fun (r : Record) => r.PeerID == k) _ (by simp [hak]),
          List.find?_cons_of_neg (p := fun (r : Record) => r.PeerID == k) _ (by simp [hak])]
        exact ih

theorem find?_map_upd_self (acc : List Record) (rec : Record)
    (h : (acc.find? (fun r => r.PeerID == rec.PeerID)).isSome = true) :
    (acc.map (fun r => if (r.PeerID == rec.PeerID) = true then rec else r)).find?
        (fun r => r.PeerID == rec.PeerID) = some rec := by
  induction acc with
  | nil => simp at h
  | cons a acc ih =>
    by_cases ha : (a.PeerID == rec.PeerID) = true
    · simp only [List.map_cons, if_pos ha]
      rw [List.find?_cons_of_pos (p := fun (r : Record) => r.PeerID == rec.PeerID) _ (by simp)]
    · simp only [List.map_cons, if_neg ha]
      rw [List.find?_cons_of_neg (p := fun (r : Record) => r.PeerID == rec.PeerID) _ (by simp [ha])]
      apply ih
      rw [List.find?_cons_of_neg (p := fun (r : Record) => r.PeerID == rec.PeerID) _ (by simp [ha])] at h
      exact h

theorem mergeStep_empty_key (acc : List Record) (rec : Record) (h : rec.PeerID = "") :
    mergeStep acc rec = acc := by
  simp [mergeStep, h]

theorem mergeStep_new_key (acc : List Record) (rec : Record) (h : rec.PeerID ≠ "")
    (hf : acc.find? (fun r => r.PeerID == rec.PeerID) = none) :
    mergeStep acc rec = acc ++ [rec] := by
  simp [mergeStep, h, hf]

theorem mergeStep_newer (acc : List Record) (rec prev : Record) (h : rec.PeerID ≠ "")
    (hf : acc.find? (fun r => r.PeerID == rec.PeerID) = some prev)
    (hn : recordIsNewer rec prev) :
    mergeStep acc rec =
      acc.map (fun r => if (r.PeerID == rec.PeerID) = true then rec else r) := by
  simp [mergeStep, h, hf, hn]

theorem mergeStep_stale (acc : List Record) (rec prev : Record) (h : rec.PeerID ≠ "")
    (hf : acc.find? (fun r => r.PeerID == rec.PeerID) = some prev)
    (hn : ¬ recordIsNewer rec prev) :
    mergeStep acc rec = acc := by
  simp [mergeStep, h, hf, hn]

theorem mergeAcc_keys (l : List Record) :
    (∀ r ∈ l.foldl mergeStep [], r.PeerID ≠ "") ∧
      ((l.foldl mergeStep []).map (fun r => r.PeerID)).Nodup := by
  induction l using List.reverseRecOn with
  | nil => simp
  | append_singleton l rec ih =>
    rw [List.foldl_append, List.foldl_cons, List.foldl_nil]
    obtain ⟨ih1, ih2⟩ := ih
    by_cases h0 : rec.PeerID = ""
    · rw [mergeStep_empty_key _ _ h0]
      exact ⟨ih1, ih2⟩
    · cases hf : (l.foldl mergeStep []).find? (fun r => r.PeerID == rec.PeerID) with
      | none =>
        rw [mergeStep_new_key _ _ h0 hf]
        have hnotin : rec.PeerID ∉ (l.foldl mergeStep []).map (fun r => r.PeerID) := by
          intro hx
          rcases List.mem_map.mp hx with ⟨r0, hr0, hkey0⟩
          have := List.find?_eq_none.mp hf r0 hr0
          simp [hkey0] at this
        constructor
        · intro r hr
          rcases List.mem_append.mp hr with hcase | hcase
          · exact ih1 r hcase
          · rw [List.mem_singleton.mp hcase]
            exact h0
        · rw [List.map_append]
          simp only [List.nodup_append, List.map_cons, List.map_nil]
          refine ⟨ih2, List.nodup_singleton _, ?_⟩
          intro x hx
          simp only [List.mem_singleton]
          intro hx2
          rw [hx2] at hx
          exact hnotin hx
      | some prev =>
        by_cases hn : recordIsNewer rec prev
        · rw [mergeStep_newer _ _ _ h0 hf hn]
          have hkeys :
              ((l.foldl mergeStep []).map
                  (fun r => if (r.PeerID == rec.PeerID) = true then rec else r)).map
                  (fun r => r.PeerID) =
                (l.foldl mergeStep []).map (fun r => r.PeerID) := by
            rw [List.map_map]
            apply List.map_congr_left
            intro r hr
            by_cases hcase : (r.PeerID == rec.PeerID) = true
            · simp only [Function.comp_apply, if_pos hcase]
              exact (beq_iff_eq.mp hcase).symm
            · simp only [Function.comp_apply, if_neg hcase]
          constructor
          · intro r hr
            rcases List.mem_map.mp hr with ⟨r0, hr0, hupd⟩
            by_cases hcase : (r0.PeerID == rec.PeerID) = true
            · rw [← hupd, if_pos hcase]
              exact h0
            · rw [← hupd, if_neg hcase]
              exact ih1 r0 hr0
          · rw [hkeys]
            exact ih2
        · rw [mergeStep_stale _ _ _ h0 hf hn]
          exact ⟨ih1, ih2⟩

theorem find?_eq_self_of_mem (acc : List Record) (r : Record)
    (hmem : r ∈ acc) (hnd : (acc.map (fun q => q.PeerID)).Nodup) :
    acc.find? (fun q => q.PeerID == r.PeerID) = some r := by
  induction acc with
  | nil => cases hmem
  | cons a acc ih =>
    rw [List.map_cons] at hnd
    rcases List.mem_cons.mp hmem with rfl | hmem2
    · exact List.find?_cons_of_pos (p := fun (q : Record) => q.PeerID == r.PeerID) _ (by simp)
    · have hne : a.PeerID ≠ r.PeerID := by
        intro hEq
        apply (List.nodup_cons.mp hnd).1
        rw [hEq]
        exact List.mem_map.mpr ⟨r, hmem2, rfl⟩
      rw [List.find?_cons_of_neg (p := fun (q : Record) => q.PeerID == r.PeerID) _
        (by simp [hne])]
      exact ih hmem2 (List.nodup_cons.mp hnd).2

theorem merge_lookup (l : List Record) (k : String) (hk : k ≠ "") :
    (l.foldl mergeStep []).find? (fun r => r.PeerID == k) = firstMaxRow l k := by
  induction l using List.reverseRecOn with
  | nil => simp [firstMaxRow, maxSeen_nil]
  | append_singleton l rec ih =>
    rw [List.foldl_append, List.foldl_cons, List.foldl_nil]
    by_cases h0 : rec.PeerID = ""
    · rw [mergeStep_empty_key _ _ h0, ih,
        firstMaxRow_append_other l rec k (by simp [h0, Ne.symm hk])]
    · by_cases hkey : rec.PeerID = k
      · subst hkey
        cases hf : (l.foldl mergeStep []).find? (fun r => r.PeerID == rec.PeerID) with
        | none =>
          rw [mergeStep_new_key _ _ h0 hf, List.find?_append, hf]
          have hfil : l.filter (fun r => r.PeerID == rec.PeerID) = [] :=
            (firstMaxRow_eq_none_iff l rec.PeerID).mp (by rw [← ih]; exact hf)
          rw [firstMaxRow_append_self_first l rec rec.PeerID hfil (by simp)]
          simp
        | some prev =>
          have hfm : firstMaxRow l rec.PeerID = some prev := by rw [← ih]; exact hf
          have hmex : ∃ t, maxSeen l rec.PeerID = some t := by
            cases hmm : maxSeen l rec.PeerID with
            | none =>
              unfold firstMaxRow at hfm
              rw [hmm] at hfm
              cases hfm
            | some t => exact ⟨t, rfl⟩
          obtain ⟨t, hmt⟩ := hmex
          have hprev : prev.LastSeenAt = t := firstMaxRow_lastSeen l rec.PeerID prev t hmt hfm
          by_cases hn : recordIsNewer rec prev
          · rw [mergeStep_newer _ _ _ h0 hf hn]
            rw [find?_map_upd_self (l.foldl mergeStep []) rec (by rw [hf]; rfl)]
            have hlt : t < rec.LastSeenAt := by
              have := hn
              simp only [recordIsNewer, recordTimestamp] at this
              omega
            rw [firstMaxRow_append_newer l rec rec.PeerID t hmt (by simp) hlt]
          · rw [mergeStep_stale _ _ _ h0 hf hn, ih, hfm]
            have hle : rec.LastSeenAt ≤ t := by
              simp only [recordIsNewer, recordTimestamp, not_lt] at hn
              omega
            rw [firstMaxRow_append_stale l rec prev rec.PeerID t hmt hfm (by simp) hle]
      · have hbk : (rec.PeerID == k) = false := by simp [hkey]
        rw [firstMaxRow_append_other l rec k hbk]
        cases hf : (l.foldl mergeStep []).find? (fun r => r.PeerID == rec.PeerID) with
        | none =>
          rw [mergeStep_new_key _ _ h0 hf, List.find?_append, ih]
          have hone : [rec].find? (fun r => r.PeerID == k) = none := by simp [hbk]
          rw [hone]
          exact Option.or_none
        | some prev =>
          by_cases hn : recordIsNewer rec prev
          · rw [mergeStep_newer _ _ _ h0 hf hn, find?_map_upd_other _ _ _ hkey, ih]
          · rw [mergeStep_stale _ _ _ h0 hf hn, ih]

/-- Claim C9: a cluster-scope status query returns exactly the merge by
`PeerID` of the local rows and the connected peers' local responses: a
row `r` is in the result precisely when its `PeerID` is non-empty and
`r` is, among the input rows carrying that `PeerID`, the one with
greatest `last_seen_at`, ties kept by the earlier-encountered row. -/
theorem ClusterStatus_spec (localRows : List Record) (peerResponses : List (List Record))
    (r : Record) :
    r ∈ ClusterStatus localRows peerResponses ↔
      (r.PeerID ≠ "" ∧
        firstMaxRow (localRows ++ peerResponses.flatten) r.PeerID = some r) := by
  unfold ClusterStatus mergeStatusRecords
  rw [List.mem_insertionSort]
  constructor
  · intro hmem
    obtain ⟨h1, h2⟩ := mergeAcc_keys (localRows ++ peerResponses.flatten)
    have hk := h1 r hmem
    refine ⟨hk, ?_⟩
    rw [← merge_lookup _ r.PeerID hk]
    exact find?_eq_self_of_mem _ r hmem h2
  · rintro ⟨hk, hfm⟩
    have hfind : ((localRows ++ peerResponses.flatten).foldl mergeStep []).find?
        (fun q => q.PeerID == r.PeerID) = some r := by
      rw [merge_lookup _ r.PeerID hk]
      exact hfm
    exact List.mem_of_find?_eq_some hfind
